import Mathlib

/-!
Shallow embedding of the filter-and-aggregation pipelines of
`dashboard.py` and `etl_pipeline.py` (online-retail-ETL-dashboard).

A transaction table is a `List Row`.  Timestamps are naturals counting
minutes, so one calendar day is `minutesPerDay = 1440` minutes; quantities
are integers (negative = return) and unit prices are rationals.  The
derived column `TotalPrice = UnitPrice * Quantity` is the function
`totalPrice`.  Dataframe boolean-mask filtering is `List.filter`, pandas
`isin` is `List.contains`, `groupby .. nunique/sum` is a fold over the
deduplicated key column, pandas `merge` (inner join) is `mergeInner`,
and `nlargest` is a stable descending insertion sort followed by `take`.
-/

namespace Retail

/-- One transaction record of `output/cleaned_online_retail.csv`: columns
`InvoiceNo, StockCode, Description, Quantity, InvoiceDate, UnitPrice,
CustomerID, Country`.  `invoiceDate` counts minutes. -/
structure Row where
  invoiceNo : Nat
  stockCode : Nat
  description : String
  quantity : Int
  invoiceDate : Nat
  unitPrice : Rat
  customerID : Nat
  country : String
  deriving DecidableEq, Repr

/-- Derived column `TotalPrice = UnitPrice * Quantity`
(`dashboard.py` line 53). -/
def totalPrice (r : Row) : Rat := r.unitPrice * r.quantity

/-- The customer-segment selectbox of `dashboard.py` (lines 91-95). -/
inductive Segment where
  | All
  | New
  | Repeat
  | HighValue
  deriving DecidableEq, Repr

/-- The sidebar filter parameters of `dashboard.py`: date range, selected
countries, selected products, segment, quantity range, price range. -/
structure FilterSpec where
  dateLo : Nat
  dateHi : Nat
  countries : List String
  products : List String
  segment : Segment
  qtyLo : Int
  qtyHi : Int
  priceLo : Rat
  priceHi : Rat
  deriving Repr

/-- Minimum of a list of naturals, `none` on the empty list
(pandas `Series.min`, which is NaN on an empty column). -/
def minDateOf : List Nat → Option Nat
  | [] => none
  | d :: ds =>
    match minDateOf ds with
    | none => some d
    | some m => some (min d m)

/-- Maximum of a list of naturals, `none` on the empty list
(pandas `Series.max`). -/
def maxDateOf : List Nat → Option Nat
  | [] => none
  | d :: ds =>
    match maxDateOf ds with
    | none => some d
    | some m => some (max d m)

/-- Minimum of a list of integers, `none` on the empty list. -/
def minQtyOf : List Int → Option Int
  | [] => none
  | q :: qs =>
    match minQtyOf qs with
    | none => some q
    | some m => some (min q m)

/-- Maximum of a list of integers, `none` on the empty list. -/
def maxQtyOf : List Int → Option Int
  | [] => none
  | q :: qs =>
    match maxQtyOf qs with
    | none => some q
    | some m => some (max q m)

/-- One calendar day in the timestamp unit (minutes). -/
def minutesPerDay : Nat := 1440

namespace Dashboard

/-- The conjunctive boolean mask of `dashboard.py` lines 126-133: date,
quantity and unit-price ranges, all bounds inclusive (`>=` / `<=`). -/
def rangeMask (s : FilterSpec) (r : Row) : Bool :=
  decide (s.dateLo ≤ r.invoiceDate) && decide (r.invoiceDate ≤ s.dateHi) &&
  decide (s.qtyLo ≤ r.quantity) && decide (r.quantity ≤ s.qtyHi) &&
  decide (s.priceLo ≤ r.unitPrice) && decide (r.unitPrice ≤ s.priceHi)

/-- Country filter of `dashboard.py` lines 135-136: `isin` applied only when
the selected list is non-empty (`if selected_countries:`). -/
def filterCountries (cs : List String) (rows : List Row) : List Row :=
  if cs.isEmpty then rows else rows.filter (fun r => cs.contains r.country)

/-- Product filter of `dashboard.py` lines 138-139: `isin` applied only when
the selected list is non-empty (`if selected_products:`). -/
def filterProducts (ps : List String) (rows : List Row) : List Row :=
  if ps.isEmpty then rows else rows.filter (fun r => ps.contains r.description)

/-- The rows of a given customer (`df[df.CustomerID == c]`, the groups of
`groupby('CustomerID')`). -/
def custRows (rows : List Row) (c : Nat) : List Row :=
  rows.filter (fun r => r.customerID == c)

/-- The distinct customer identifiers of a table, in first-occurrence order
(the group keys of `groupby('CustomerID')`). -/
def customers (rows : List Row) : List Nat :=
  (rows.map Row.customerID).dedup

/-- Invoice dates of a customer's rows. -/
def custDates (rows : List Row) (c : Nat) : List Nat :=
  (custRows rows c).map Row.invoiceDate

/-- The table `first_purchases` of `dashboard.py` line 142:
`df.groupby('CustomerID')['InvoiceDate'].min()`, one `(customer, date)`
pair per distinct customer. -/
def firstPurchases (base : List Row) : List (Nat × Nat) :=
  (customers base).filterMap
    (fun c => (minDateOf (custDates base c)).map (fun d => (c, d)))

/-- Pandas inner `merge` on the columns `CustomerID, InvoiceDate`
(`dashboard.py` line 143): each left row is repeated once per matching
key pair of the right table. -/
def mergeInner (fp : List (Nat × Nat)) : List Row → List Row
  | [] => []
  | x :: xs =>
    ((fp.filter (fun p => p.1 == x.customerID && p.2 == x.invoiceDate)).map
      (fun _ => x)) ++ mergeInner fp xs

/-- Number of distinct invoices of a customer
(`groupby('CustomerID')['InvoiceNo'].nunique()`). -/
def invoiceCount (rows : List Row) (c : Nat) : Nat :=
  ((custRows rows c).map Row.invoiceNo).dedup.length

/-- The customers with more than one distinct invoice over the base table
(`dashboard.py` lines 145-146). -/
def repeatCustomers (base : List Row) : List Nat :=
  (customers base).filter (fun c => 1 < invoiceCount base c)

/-- Total lifetime spend of a customer
(`groupby('CustomerID')['TotalPrice'].sum()`). -/
def custSpend (rows : List Row) (c : Nat) : Rat :=
  ((custRows rows c).map totalPrice).sum

/-- The per-customer spend table, one pair per distinct customer. -/
def custSpends (base : List Row) : List (Nat × Rat) :=
  (customers base).map (fun c => (c, custSpend base c))

/-- Descending-by-spend order on the spend table: `a` precedes `b` when
`b`'s spend is at most `a`'s. -/
def spendGE (a b : Nat × Rat) : Prop := b.2 ≤ a.2

instance : DecidableRel spendGE :=
  fun a b => inferInstanceAs (Decidable (b.2 ≤ a.2))

instance : IsTotal (Nat × Rat) spendGE :=
  ⟨fun a b => (le_total b.2 a.2).imp id id⟩

instance : IsTrans (Nat × Rat) spendGE :=
  ⟨fun _ _ _ h1 h2 => le_trans h2 h1⟩

/-- The `high_value` index of `dashboard.py` line 149:
`groupby('CustomerID')['TotalPrice'].sum().nlargest(100).index`.
`nlargest(100)` sorts descending by value, keeping first-encountered order
among ties, and takes at most 100 entries. -/
def highValue (base : List Row) : List Nat :=
  (((custSpends base).insertionSort spendGE).take 100).map Prod.fst

/-- The non-segment part of the filter pipeline of `dashboard.py`
(lines 126-139): range mask, then country filter, then product filter. -/
def preSegment (base : List Row) (s : FilterSpec) : List Row :=
  filterProducts s.products (filterCountries s.countries (base.filter (rangeMask s)))

/-- The row-level condition each segment branch of `dashboard.py`
(lines 141-150) imposes, computed from the unfiltered base table. -/
def segmentKeep (base : List Row) (seg : Segment) (r : Row) : Bool :=
  match seg with
  | Segment.All => true
  | Segment.New =>
    (firstPurchases base).any
      (fun p => p.1 == r.customerID && p.2 == r.invoiceDate)
  | Segment.Repeat => (repeatCustomers base).contains r.customerID
  | Segment.HighValue => (highValue base).contains r.customerID

/-- The full filter pipeline of `dashboard.py` lines 126-150: ranges,
countries, products, then the selected segment branch. -/
def applyFilters (base : List Row) (s : FilterSpec) : List Row :=
  match s.segment with
  | Segment.All => preSegment base s
  | Segment.New => mergeInner (firstPurchases base) (preSegment base s)
  | Segment.Repeat =>
    (preSegment base s).filter (fun r => (repeatCustomers base).contains r.customerID)
  | Segment.HighValue =>
    (preSegment base s).filter (fun r => (highValue base).contains r.customerID)

end Dashboard

/-- KPI "Total Sales": `filtered_df['TotalPrice'].sum()` (zero on an empty
table, as pandas sums an empty column to 0). -/
def totalSales (rows : List Row) : Rat := (rows.map totalPrice).sum

/-- KPI "Total Orders": `filtered_df['InvoiceNo'].nunique()`. -/
def orderCount (rows : List Row) : Nat := (rows.map Row.invoiceNo).dedup.length

/-- KPI "Active Customers": `filtered_df['CustomerID'].nunique()`. -/
def customerCount (rows : List Row) : Nat := (rows.map Row.customerID).dedup.length

/-- KPI "Unique Products": `filtered_df['Description'].nunique()`. -/
def productCount (rows : List Row) : Nat := (rows.map Row.description).dedup.length

/-- A `groupby(key)[metric].sum()` aggregation: an ordered mapping from each
distinct key to the sum of the metric over that key's rows. -/
def groupBySum {κ : Type} [DecidableEq κ] (key : Row → κ) (metric : Row → Rat)
    (rows : List Row) : List (κ × Rat) :=
  ((rows.map key).dedup).map
    (fun k => (k, ((rows.filter (fun r => key r == k)).map metric).sum))

/-- A `groupby(key)[col].nunique()` aggregation: an ordered mapping from each
distinct key to the number of distinct values of `col` among its rows. -/
def groupByNunique {κ μ : Type} [DecidableEq κ] [DecidableEq μ] (key : Row → κ)
    (col : Row → μ) (rows : List Row) : List (κ × Nat) :=
  ((rows.map key).dedup).map
    (fun k => (k, ((rows.filter (fun r => key r == k)).map col).dedup.length))

/-- Latest invoice timestamp of a customer within a table
(`x.max()` inside the RFM aggregation). -/
def custMaxDate (rows : List Row) (c : Nat) : Option Nat :=
  maxDateOf (Dashboard.custDates rows c)

/-- The RFM reference instant of `dashboard.py` line 307:
`filtered_df['InvoiceDate'].max() + pd.Timedelta(days=1)`. -/
def refInstant (rows : List Row) : Nat :=
  (maxDateOf (rows.map Row.invoiceDate)).getD 0 + minutesPerDay

/-- Whole days between a later and an earlier instant (`Timedelta.days`,
which truncates a non-negative delta downward). -/
def daysBetween (later earlier : Nat) : Nat := (later - earlier) / minutesPerDay

/-- One row of the RFM table of `dashboard.py` lines 308-316. -/
structure RfmEntry where
  cust : Nat
  recency : Nat
  frequency : Nat
  monetary : Rat
  deriving DecidableEq, Repr

/-- The RFM aggregation of `dashboard.py` lines 307-316: per customer of the
filtered table, recency in days to the reference instant, distinct-invoice
frequency, summed monetary value. -/
def rfm (rows : List Row) : List RfmEntry :=
  (Dashboard.customers rows).map (fun c =>
    { cust := c
      recency := daysBetween (refInstant rows) ((custMaxDate rows c).getD 0)
      frequency := Dashboard.invoiceCount rows c
      monetary := Dashboard.custSpend rows c })

/-- One serialized CSV line of a row (`to_csv` output shape). -/
def csvLine (r : Row) : String :=
  toString r.invoiceNo ++ "," ++ toString r.stockCode ++ "," ++
  r.description ++ "," ++ toString r.quantity ++ "," ++
  toString r.invoiceDate ++ "," ++ toString r.unitPrice ++ "," ++
  toString r.customerID ++ "," ++ r.country

/-- The Export Data button of `dashboard.py` lines 116-123: it serializes
`df.to_csv(index=False)` — the base table `df`, one line per row. -/
def exportData (base : List Row) : List String := base.map csvLine

namespace Etl

/-- The sidebar parameters of `etl_pipeline.py`: date range, countries,
products, customer-id query text, quantity range. -/
structure EtlSpec where
  dateLo : Nat
  dateHi : Nat
  countries : List String
  products : List String
  custQuery : List Char
  qtyLo : Int
  qtyHi : Int
  deriving Repr

/-- String form of a row's customer identifier
(`df['CustomerID'].astype(str)`). -/
def custIdStr (r : Row) : List Char := (toString r.customerID).data

/-- Decides whether the pattern matches an initial run of the text, where
the character `.` in the pattern matches any one character and every other
pattern character matches only itself. -/
def matchesAt : List Char → List Char → Bool
  | [], _ => true
  | _ :: _, [] => false
  | p :: ps, c :: cs => (p == ('.' : Char) || p == c) && matchesAt ps cs

/-- Python `re.search` on the regex fragment of literal characters and the
`.` wildcard: the pattern matches starting at some position of the text.
Pandas `str.contains` uses this regex interpretation by default
(`regex=True`); patterns with further metacharacters (classes, repetition,
anchors, alternation) or invalid regexes are outside this model. -/
def regexSearch (pat : List Char) : List Char → Bool
  | [] => pat.isEmpty
  | c :: cs => matchesAt pat (c :: cs) || regexSearch pat cs

/-- The CustomerID text filter of `etl_pipeline.py` lines 33-35: applied only
when the query text is non-empty (`if cust_id:`), keeping rows whose
customer-id string matches the query via `str.contains`, i.e. a regex
search with the pandas default `regex=True`. -/
def custIdFilter (q : List Char) (rows : List Row) : List Row :=
  if q.isEmpty then rows else rows.filter (fun r => regexSearch q (custIdStr r))

/-- The filter pipeline of `etl_pipeline.py` lines 24-35, up to (excluding)
the quantity slider: date range, then the country `isin` applied
unconditionally (line 27 has no emptiness guard), then the guarded product
filter, then the guarded customer-id text filter. -/
def filterToQty (base : List Row) (s : EtlSpec) : List Row :=
  let f1 := base.filter
    (fun r => decide (s.dateLo ≤ r.invoiceDate) && decide (r.invoiceDate ≤ s.dateHi))
  let f2 := f1.filter (fun r => s.countries.contains r.country)
  let f3 := if s.products.isEmpty then f2
            else f2.filter (fun r => s.products.contains r.description)
  custIdFilter s.custQuery f3

/-- The quantity-slider bounds of `etl_pipeline.py` line 37:
`int(df['Quantity'].min()), int(df['Quantity'].max())`.  On an empty table
pandas `min`/`max` is NaN and `int(NaN)` raises, modelled as `none`. -/
def sliderBounds (rows : List Row) : Option (Int × Int) :=
  match minQtyOf (rows.map Row.quantity), maxQtyOf (rows.map Row.quantity) with
  | some a, some b => some (a, b)
  | _, _ => none

/-- The full filter pipeline of `etl_pipeline.py` (lines 24-38), with the
quantity range of the slider applied last, bounds inclusive. -/
def applyEtl (base : List Row) (s : EtlSpec) : List Row :=
  (filterToQty base s).filter
    (fun r => decide (s.qtyLo ≤ r.quantity) && decide (r.quantity ≤ s.qtyHi))

end Etl

/-! ## Concrete example tables and filter parameters

Small tables used to evaluate the pipelines at concrete inputs: a UK
purchase, a second later UK purchase by the same customer, and a French
purchase by another customer. -/

/-- Invoice 1: customer 17850 buys 5 MUG at 2.00 in the United Kingdom,
minute 1000. -/
def exRowUK : Row := ⟨1, 10, "MUG", 5, 1000, 2, 17850, "United Kingdom"⟩

/-- Invoice 3: the same customer 17850 buys again later (minute 3000). -/
def exRowUK2 : Row := ⟨3, 12, "PLATE", 2, 3000, 3, 17850, "United Kingdom"⟩

/-- Invoice 2: customer 12500 buys 3 LAMP at 4.00 in France, minute 2000. -/
def exRowFR : Row := ⟨2, 11, "LAMP", 3, 2000, 4, 12500, "France"⟩

/-- A two-row base table: one UK row, one French row. -/
def exBase2 : List Row := [exRowUK, exRowFR]

/-- A three-row base table: customer 17850 has two invoices. -/
def exBase3 : List Row := [exRowUK, exRowUK2, exRowFR]

/-- Wide-open dashboard filter parameters: full ranges, no country or
product selection, segment All. -/
def exSpecAll : FilterSpec := ⟨0, 100000, [], [], Segment.All, -100, 100, 0, 100⟩

/-- Like `exSpecAll` but restricted to the United Kingdom. -/
def exSpecUK : FilterSpec :=
  ⟨0, 100000, ["United Kingdom"], [], Segment.All, -100, 100, 0, 100⟩

/-- Like `exSpecAll` but with the New customer segment selected. -/
def exSpecNew : FilterSpec := ⟨0, 100000, [], [], Segment.New, -100, 100, 0, 100⟩

/-- A reversed date range: the lower bound 5000 exceeds the upper bound
4000. -/
def exSpecRev : FilterSpec := ⟨5000, 4000, [], [], Segment.All, -100, 100, 0, 100⟩

/-- Wide-open etl_pipeline parameters with an EMPTY country selection. -/
def exEtlWide : Etl.EtlSpec := ⟨0, 100000, [], [], [], -100, 100⟩

/-- Like `exEtlWide` but with the United Kingdom selected. -/
def exEtlUK : Etl.EtlSpec := ⟨0, 100000, ["United Kingdom"], [], [], -100, 100⟩

/-! ## Facts about the list minimum / maximum helpers -/

theorem minDateOf_mem {l : List Nat} {m : Nat} (h : minDateOf l = some m) :
    m ∈ l := by
  induction l generalizing m with
  | nil => simp [minDateOf] at h
  | cons d ds ih =>
    rw [minDateOf] at h
    cases hds : minDateOf ds with
    | none => rw [hds] at h; simp only [Option.some.injEq] at h; simp [h]
    | some m2 =>
      rw [hds] at h
      simp only [Option.some.injEq] at h
      rcases le_total d m2 with hle | hle
      · rw [min_eq_left hle] at h
        exact h ▸ List.mem_cons_self d ds
      · rw [min_eq_right hle] at h
        exact h ▸ List.mem_cons_of_mem d (ih hds)

theorem minDateOf_le {l : List Nat} {m x : Nat} (h : minDateOf l = some m)
    (hx : x ∈ l) : m ≤ x := by
  induction l generalizing m with
  | nil => simp at hx
  | cons d ds ih =>
    rw [minDateOf] at h
    rcases List.mem_cons.mp hx with rfl | hx
    · cases hds : minDateOf ds with
      | none => rw [hds] at h; simp only [Option.some.injEq] at h; omega
      | some m2 =>
        rw [hds] at h
        simp only [Option.some.injEq] at h
        subst h
        exact min_le_left _ _
    · cases hds : minDateOf ds with
      | none =>
        rw [hds] at h
        cases ds with
        | nil => simp at hx
        | cons e es => rw [minDateOf] at hds; cases h2 : minDateOf es <;> simp [h2] at hds
      | some m2 =>
        rw [hds] at h
        simp only [Option.some.injEq] at h
        subst h
        exact le_trans (min_le_right _ _) (ih hds hx)

theorem minDateOf_isSome {l : List Nat} (h : l ≠ []) :
    ∃ m, minDateOf l = some m := by
  cases l with
  | nil => exact absurd rfl h
  | cons d ds =>
    rw [minDateOf]
    cases minDateOf ds <;> exact ⟨_, rfl⟩

theorem minDateOf_eq_some_iff {l : List Nat} {d : Nat} :
    minDateOf l = some d ↔ d ∈ l ∧ ∀ x ∈ l, d ≤ x := by
  constructor
  · exact fun h => ⟨minDateOf_mem h, fun x hx => minDateOf_le h hx⟩
  · rintro ⟨hd, hle⟩
    obtain ⟨m, hm⟩ := minDateOf_isSome (List.ne_nil_of_mem hd)
    have h1 : m ≤ d := minDateOf_le hm hd
    have h2 : d ≤ m := hle m (minDateOf_mem hm)
    rw [hm, le_antisymm h1 h2]

theorem maxDateOf_mem {l : List Nat} {m : Nat} (h : maxDateOf l = some m) :
    m ∈ l := by
  induction l generalizing m with
  | nil => simp [maxDateOf] at h
  | cons d ds ih =>
    rw [maxDateOf] at h
    cases hds : maxDateOf ds with
    | none => rw [hds] at h; simp only [Option.some.injEq] at h; simp [h]
    | some m2 =>
      rw [hds] at h
      simp only [Option.some.injEq] at h
      rcases le_total d m2 with hle | hle
      · rw [max_eq_right hle] at h
        exact h ▸ List.mem_cons_of_mem d (ih hds)
      · rw [max_eq_left hle] at h
        exact h ▸ List.mem_cons_self d ds

theorem le_maxDateOf {l : List Nat} {m x : Nat} (h : maxDateOf l = some m)
    (hx : x ∈ l) : x ≤ m := by
  induction l generalizing m with
  | nil => simp at hx
  | cons d ds ih =>
    rw [maxDateOf] at h
    rcases List.mem_cons.mp hx with rfl | hx
    · cases hds : maxDateOf ds with
      | none => rw [hds] at h; simp only [Option.some.injEq] at h; omega
      | some m2 =>
        rw [hds] at h
        simp only [Option.some.injEq] at h
        subst h
        exact le_max_left _ _
    · cases hds : maxDateOf ds with
      | none =>
        rw [hds] at h
        cases ds with
        | nil => simp at hx
        | cons e es => rw [maxDateOf] at hds; cases h2 : maxDateOf es <;> simp [h2] at hds
      | some m2 =>
        rw [hds] at h
        simp only [Option.some.injEq] at h
        subst h
        exact le_trans (ih hds hx) (le_max_right _ _)

theorem maxDateOf_eq_some_iff {l : List Nat} {d : Nat} :
    maxDateOf l = some d ↔ d ∈ l ∧ ∀ x ∈ l, x ≤ d := by
  constructor
  · exact fun h => ⟨maxDateOf_mem h, fun x hx => le_maxDateOf h hx⟩
  · rintro ⟨hd, hle⟩
    cases l with
    | nil => simp at hd
    | cons e es =>
      have hne : (e :: es : List Nat) ≠ [] := by simp
      obtain ⟨m, hm⟩ : ∃ m, maxDateOf (e :: es) = some m := by
        rw [maxDateOf]; cases maxDateOf es <;> exact ⟨_, rfl⟩
      have h1 : m ≤ d := hle m (maxDateOf_mem hm)
      have h2 : d ≤ m := le_maxDateOf hm hd
      rw [hm, le_antisymm h1 h2]

namespace Dashboard

/-! ## Facts about customers, first purchases and the inner merge -/

theorem customerID_mem_customers {rows : List Row} {r : Row} (h : r ∈ rows) :
    r.customerID ∈ customers rows :=
  List.mem_dedup.mpr (List.mem_map_of_mem Row.customerID h)

theorem custDates_ne_nil {rows : List Row} {c : Nat} (h : c ∈ customers rows) :
    custDates rows c ≠ [] := by
  obtain ⟨r, hr, hrc⟩ := List.mem_map.mp (List.mem_dedup.mp h)
  have : r ∈ custRows rows c := by
    simp only [custRows, List.mem_filter, beq_iff_eq]
    exact ⟨hr, hrc⟩
  simp only [custDates, ne_eq, List.map_eq_nil_iff]
  exact fun hnil => by simp [hnil] at this

theorem mem_custDates_iff {rows : List Row} {c d : Nat} :
    d ∈ custDates rows c ↔ ∃ r ∈ rows, r.customerID = c ∧ r.invoiceDate = d := by
  simp only [custDates, custRows, List.mem_map, List.mem_filter, beq_iff_eq]
  constructor
  · rintro ⟨r, ⟨hr, hc⟩, hd⟩; exact ⟨r, hr, hc, hd⟩
  · rintro ⟨r, hr, hc, hd⟩; exact ⟨r, ⟨hr, hc⟩, hd⟩

theorem mem_firstPurchases_iff {base : List Row} {p : Nat × Nat} :
    p ∈ firstPurchases base ↔
      p.1 ∈ customers base ∧ minDateOf (custDates base p.1) = some p.2 := by
  simp only [firstPurchases, List.mem_filterMap, Option.map_eq_some']
  constructor
  · rintro ⟨c, hc, d, hd, hp⟩
    cases p
    cases hp
    exact ⟨hc, hd⟩
  · rintro ⟨hc, hd⟩
    exact ⟨p.1, hc, p.2, hd, rfl⟩

theorem mem_mergeInner {fp : List (Nat × Nat)} {rows : List Row} {r : Row} :
    r ∈ mergeInner fp rows ↔
      r ∈ rows ∧ ∃ p ∈ fp, p.1 = r.customerID ∧ p.2 = r.invoiceDate := by
  induction rows with
  | nil => simp [mergeInner]
  | cons x xs ih =>
    rw [mergeInner]
    simp only [List.mem_append, List.mem_map, List.mem_filter, Bool.and_eq_true,
      beq_iff_eq, List.mem_cons, ih]
    constructor
    · rintro (⟨p, ⟨hp, h1, h2⟩, rfl⟩ | ⟨hr, p, hp, h1, h2⟩)
      · exact ⟨Or.inl rfl, p, hp, h1, h2⟩
      · exact ⟨Or.inr hr, p, hp, h1, h2⟩
    · rintro ⟨rfl | hr, p, hp, h1, h2⟩
      · exact Or.inl ⟨p, ⟨hp, h1, h2⟩, rfl⟩
      · exact Or.inr ⟨hr, p, hp, h1, h2⟩

theorem filterMap_pair_map_fst_sublist {α β : Type} (h : α → Option β) :
    ∀ l : List α,
      List.Sublist ((List.filterMap (fun c => (h c).map (fun d => (c, d))) l).map Prod.fst) l
  | [] => by simp
  | c :: l => by
    rw [List.filterMap_cons]
    cases hc : (h c).map (fun d => (c, d)) with
    | none => exact (filterMap_pair_map_fst_sublist h l).cons c
    | some p =>
      obtain ⟨d, _, rfl⟩ := Option.map_eq_some'.mp hc
      rw [List.map_cons]
      exact (filterMap_pair_map_fst_sublist h l).cons₂ c

theorem firstPurchases_nodup_fst (base : List Row) :
    ((firstPurchases base).map Prod.fst).Nodup :=
  ((filterMap_pair_map_fst_sublist _ _)).nodup (List.nodup_dedup _)

theorem filter_pair_map_const {fp : List (Nat × Nat)} {c d : Nat} {x : Row}
    (hnd : (fp.map Prod.fst).Nodup) :
    (fp.filter (fun p => p.1 == c && p.2 == d)).map (fun _ => x) =
      if fp.any (fun p => p.1 == c && p.2 == d) then [x] else [] := by
  induction fp with
  | nil => simp
  | cons p ps ih =>
    rw [List.map_cons, List.nodup_cons] at hnd
    rw [List.filter_cons, List.any_cons]
    by_cases hp : (p.1 == c && p.2 == d) = true
    · rw [if_pos hp, hp, Bool.true_or, if_pos rfl, List.map_cons]
      have hps : ps.filter (fun q => q.1 == c && q.2 == d) = [] := by
        rw [List.filter_eq_nil_iff]
        intro q hq hqeq
        simp only [Bool.and_eq_true, beq_iff_eq] at hp hqeq
        refine hnd.1 ?_
        rw [hp.1, ← hqeq.1]
        exact List.mem_map_of_mem Prod.fst hq
      rw [hps, List.map_nil]
    · rw [if_neg hp, Bool.not_eq_true] at *
      rw [hp, Bool.false_or]
      exact ih hnd.2

theorem mergeInner_eq_filter {fp : List (Nat × Nat)} (rows : List Row)
    (hnd : (fp.map Prod.fst).Nodup) :
    mergeInner fp rows =
      rows.filter
        (fun r => fp.any (fun p => p.1 == r.customerID && p.2 == r.invoiceDate)) := by
  induction rows with
  | nil => rfl
  | cons x xs ih =>
    rw [mergeInner, List.filter_cons, filter_pair_map_const hnd, ih]
    by_cases hx : fp.any (fun p => p.1 == x.customerID && p.2 == x.invoiceDate) = true
    · rw [hx, if_pos rfl, if_pos rfl, List.singleton_append]
    · rw [Bool.not_eq_true] at hx
      rw [hx]
      simp

/-! ## The filtered table is a sub-multiset of its input -/

theorem filterCountries_sublist (cs : List String) (rows : List Row) :
    List.Sublist (filterCountries cs rows) rows := by
  rw [filterCountries]
  split
  · exact List.Sublist.refl rows
  · exact List.filter_sublist rows

theorem filterProducts_sublist (ps : List String) (rows : List Row) :
    List.Sublist (filterProducts ps rows) rows := by
  rw [filterProducts]
  split
  · exact List.Sublist.refl rows
  · exact List.filter_sublist rows

theorem mergeInner_sublist (fp : List (Nat × Nat)) (rows : List Row)
    (hnd : (fp.map Prod.fst).Nodup) :
    List.Sublist (mergeInner fp rows) rows := by
  rw [mergeInner_eq_filter rows hnd]
  exact List.filter_sublist rows

theorem preSegment_sublist (base : List Row) (s : FilterSpec) :
    List.Sublist (preSegment base s) base :=
  ((filterProducts_sublist _ _).trans (filterCountries_sublist _ _)).trans
    (List.filter_sublist base)

theorem applyFilters_sublist (base : List Row) (s : FilterSpec) :
    List.Sublist (applyFilters base s) base := by
  rw [applyFilters]
  cases s.segment
  · exact preSegment_sublist base s
  · exact (mergeInner_sublist _ _ (firstPurchases_nodup_fst base)).trans
      (preSegment_sublist base s)
  · exact (List.filter_sublist _).trans (preSegment_sublist base s)
  · exact (List.filter_sublist _).trans (preSegment_sublist base s)

/-! ## Decomposition: segment filtering is one AND-condition on rows -/

theorem segmentKeep_all (base : List Row) :
    segmentKeep base Segment.All = fun _ => true := rfl

theorem segmentKeep_new (base : List Row) :
    segmentKeep base Segment.New =
      fun r => (firstPurchases base).any
        (fun p => p.1 == r.customerID && p.2 == r.invoiceDate) := rfl

theorem segmentKeep_repeat (base : List Row) :
    segmentKeep base Segment.Repeat =
      fun r => (repeatCustomers base).contains r.customerID := rfl

theorem segmentKeep_highValue (base : List Row) :
    segmentKeep base Segment.HighValue =
      fun r => (highValue base).contains r.customerID := rfl

theorem applyFilters_eq_filter_segmentKeep (base : List Row) (s : FilterSpec) :
    applyFilters base s = (preSegment base s).filter (segmentKeep base s.segment) := by
  rw [applyFilters]
  cases s.segment
  · rw [segmentKeep_all]
    simp
  · rw [mergeInner_eq_filter _ (firstPurchases_nodup_fst base), segmentKeep_new]
  · rw [segmentKeep_repeat]
  · rw [segmentKeep_highValue]

/-! ## Empty tables propagate through every stage -/

theorem filterCountries_nil (cs : List String) : filterCountries cs [] = [] := by
  rw [filterCountries]
  split <;> simp

theorem filterProducts_nil (ps : List String) : filterProducts ps [] = [] := by
  rw [filterProducts]
  split <;> simp

theorem applyFilters_of_mask_nil {base : List Row} {s : FilterSpec}
    (h : base.filter (rangeMask s) = []) : applyFilters base s = [] := by
  rw [applyFilters_eq_filter_segmentKeep, preSegment, h, filterCountries_nil,
    filterProducts_nil, List.filter_nil]

/-! ## Facts about the top-100 spend ranking -/

theorem custSpends_snd {base : List Row} {p : Nat × Rat}
    (hp : p ∈ custSpends base) : p.2 = custSpend base p.1 := by
  obtain ⟨c, _, rfl⟩ := List.mem_map.mp hp
  rfl

theorem custSpends_fst_nodup (base : List Row) :
    ((custSpends base).map Prod.fst).Nodup := by
  rw [custSpends, List.map_map]
  have h : (Prod.fst ∘ fun c => (c, custSpend base c)) = id := rfl
  rw [h, List.map_id]
  exact List.nodup_dedup (base.map Row.customerID)

theorem highValue_length (base : List Row) :
    (highValue base).length = min 100 (customers base).length := by
  rw [highValue, List.length_map, List.length_take,
    (List.perm_insertionSort spendGE (custSpends base)).length_eq,
    custSpends, List.length_map]

theorem highValue_nodup (base : List Row) : (highValue base).Nodup := by
  have h1 : (((custSpends base).insertionSort spendGE).map Prod.fst).Nodup :=
    (((List.perm_insertionSort spendGE (custSpends base)).map Prod.fst).nodup_iff).mpr
      (custSpends_fst_nodup base)
  rw [highValue, List.map_take]
  exact h1.sublist (List.take_sublist _ _)

theorem highValue_top {base : List Row} {c c2 : Nat} (hc : c ∈ highValue base)
    (hc2 : c2 ∈ customers base) (hnot : c2 ∉ highValue base) :
    custSpend base c2 ≤ custSpend base c := by
  classical
  set l := custSpends base with hl
  set srt := l.insertionSort spendGE with hsrt
  obtain ⟨p, hptake, rfl⟩ := List.mem_map.mp hc
  have hpsrt : p ∈ srt := List.mem_of_mem_take hptake
  have hpl : p ∈ l := (List.perm_insertionSort spendGE l).subset hpsrt
  have hp2 : p.2 = custSpend base p.1 := custSpends_snd hpl
  have hql : (c2, custSpend base c2) ∈ l := by
    rw [hl, custSpends]
    exact List.mem_map_of_mem _ hc2
  have hqsrt : (c2, custSpend base c2) ∈ srt :=
    ((List.perm_insertionSort spendGE l).symm).subset hql
  have hsplit := List.take_append_drop 100 srt
  have hsorted : List.Sorted spendGE srt := List.sorted_insertionSort spendGE l
  rw [← hsplit] at hsorted
  rcases List.mem_append.mp (by rw [hsplit]; exact hqsrt) with hqtake | hqdrop
  · exact absurd (List.mem_map_of_mem Prod.fst hqtake) hnot
  · have hcross : custSpend base c2 ≤ p.2 :=
      (List.pairwise_append.mp hsorted).2.2 p hptake _ hqdrop
    rw [hp2] at hcross
    exact hcross

theorem highValue_subset_customers {base : List Row} {c : Nat}
    (hc : c ∈ highValue base) : c ∈ customers base := by
  obtain ⟨p, hp, rfl⟩ := List.mem_map.mp hc
  have hpl : p ∈ custSpends base :=
    (List.perm_insertionSort spendGE (custSpends base)).subset
      (List.mem_of_mem_take hp)
  obtain ⟨c, hcmem, rfl⟩ := List.mem_map.mp hpl
  exact hcmem

end Dashboard

namespace Etl

/-! ## Substring semantics of the CustomerID text filter -/

theorem custIdFilter_nil (q : List Char) : custIdFilter q [] = [] := by
  rw [custIdFilter]
  split <;> simp

theorem filterToQty_empty_countries {base : List Row} {es : EtlSpec}
    (hc : es.countries = []) : filterToQty base es = [] := by
  unfold filterToQty
  dsimp only
  rw [hc]
  have h2 : ∀ l : List Row,
      l.filter (fun r => ([] : List String).contains r.country) = [] := by
    intro l
    rw [List.filter_eq_nil_iff]
    intro r _
    simp
  rw [h2]
  have h3 : (if es.products.isEmpty then ([] : List Row)
      else ([] : List Row).filter (fun r => es.products.contains r.description)) = [] := by
    split <;> simp
  rw [h3]
  exact custIdFilter_nil _

theorem applyEtl_empty_countries {base : List Row} {es : EtlSpec}
    (hc : es.countries = []) : applyEtl base es = [] := by
  rw [applyEtl, filterToQty_empty_countries hc, List.filter_nil]

end Etl

/-! ## The claims -/

/-- C1, counterexample: in `etl_pipeline.py` an empty country selection does
NOT leave the table unrestricted.  On the one-row UK table, the pipeline with
an empty country set returns nothing, although the very same parameters with
the UK selected keep the row — so the row passes every other predicate. -/
theorem etl_empty_country_set_matches_nothing :
    Etl.applyEtl [exRowUK] exEtlWide = [] ∧
    Etl.applyEtl [exRowUK] exEtlUK = [exRowUK] := by
  exact ⟨by decide, by decide⟩

/-- C1, amended: in `dashboard.py` an empty selected country set and an empty
selected product set each leave the table unrestricted, and in
`etl_pipeline.py` an empty product selection likewise restricts nothing (the
pipeline collapses to its date and country stages followed by the
customer-id filter); but the etl country filter is applied unconditionally,
so an empty country selection yields the empty table (matches nothing). -/
theorem empty_membership_filter_is_no_restriction (base rows : List Row)
    (es : Etl.EtlSpec) (hp : es.products = []) :
    Dashboard.filterCountries [] rows = rows ∧
    Dashboard.filterProducts [] rows = rows ∧
    Etl.filterToQty base es =
      Etl.custIdFilter es.custQuery
        ((base.filter (fun r => decide (es.dateLo ≤ r.invoiceDate) &&
            decide (r.invoiceDate ≤ es.dateHi))).filter
          (fun r => es.countries.contains r.country)) ∧
    (es.countries = [] → Etl.applyEtl base es = []) := by
  refine ⟨?_, ?_, ?_, fun hc => Etl.applyEtl_empty_countries hc⟩
  · rw [Dashboard.filterCountries]
    simp
  · rw [Dashboard.filterProducts]
    simp
  · unfold Etl.filterToQty
    dsimp only
    rw [hp]
    simp

/-- C1, witness for the amended theorem at a concrete input. -/
theorem empty_membership_filter_is_no_restriction_witness :
    Dashboard.filterCountries [] [exRowUK] = [exRowUK] ∧
    Dashboard.filterProducts [] [exRowUK] = [exRowUK] ∧
    Etl.filterToQty exBase2 exEtlWide =
      Etl.custIdFilter exEtlWide.custQuery
        ((exBase2.filter (fun r => decide (exEtlWide.dateLo ≤ r.invoiceDate) &&
            decide (r.invoiceDate ≤ exEtlWide.dateHi))).filter
          (fun r => exEtlWide.countries.contains r.country)) ∧
    (exEtlWide.countries = [] → Etl.applyEtl exBase2 exEtlWide = []) :=
  empty_membership_filter_is_no_restriction exBase2 [exRowUK] exEtlWide rfl

/-- C2: on the empty filtered table every aggregation yields an empty mapping
and every KPI scalar is zero — but the quantity-slider bound computation of
`etl_pipeline.py` line 37 (`int(df['Quantity'].min())`) has no value on the
empty table (pandas `min` is NaN there and `int(NaN)` raises), as the failing
input with an empty country selection shows: the filtered table reaching the
slider is empty and the bound computation yields `none` instead of a value. -/
theorem empty_filtered_table_kpis_zero_but_etl_slider_fails :
    Etl.filterToQty [exRowUK] exEtlWide = [] ∧
    Etl.sliderBounds (Etl.filterToQty [exRowUK] exEtlWide) = none ∧
    totalSales [] = 0 ∧ orderCount [] = 0 ∧ customerCount [] = 0 ∧
    productCount [] = 0 ∧
    groupBySum Row.country totalPrice [] = [] ∧
    groupByNunique Row.country Row.customerID [] = [] ∧
    rfm [] = [] := by
  exact ⟨by decide, by decide, rfl, rfl, rfl, rfl, rfl, rfl, rfl⟩

/-- C3, counterexample: the Export Data button serializes `df` (the base
table), not `filtered_df`.  With the UK-only filter the filtered table is
just the UK row, yet the exported CSV contains the line of the filtered-out
French row, so the exported row set differs from the filtered row set. -/
theorem export_contains_filtered_out_row :
    Dashboard.applyFilters exBase2 exSpecUK = [exRowUK] ∧
    csvLine exRowFR ∈ exportData exBase2 ∧
    exRowFR ∉ Dashboard.applyFilters exBase2 exSpecUK ∧
    (∀ r ∈ Dashboard.applyFilters exBase2 exSpecUK, csvLine r ≠ csvLine exRowFR) := by
  exact ⟨by decide, by decide, by decide, by decide⟩

/-- C3, amended: the export serializes exactly the full base table to CSV;
the filtered table's lines always form a sub-list of the export, with
equality only when filtering removes nothing. -/
theorem export_serializes_base_table (base : List Row) (s : FilterSpec) :
    exportData base = base.map csvLine ∧
    List.Sublist ((Dashboard.applyFilters base s).map csvLine) (exportData base) :=
  ⟨rfl, (Dashboard.applyFilters_sublist base s).map csvLine⟩

/-- C4: with the New segment selected, a row survives the segment filter iff
it also survives the other predicates and its invoice timestamp equals the
minimum invoice timestamp of its customer over the unfiltered base table. -/
theorem new_segment_keeps_exactly_first_purchases (base : List Row)
    (s : FilterSpec) (hseg : s.segment = Segment.New) (r : Row) :
    r ∈ Dashboard.applyFilters base s ↔
      r ∈ Dashboard.preSegment base s ∧
      minDateOf (Dashboard.custDates base r.customerID) = some r.invoiceDate := by
  rw [Dashboard.applyFilters_eq_filter_segmentKeep, hseg, List.mem_filter,
    Dashboard.segmentKeep_new]
  refine and_congr_right fun _ => ?_
  rw [List.any_eq_true]
  constructor
  · rintro ⟨p, hp, hpe⟩
    simp only [Bool.and_eq_true, beq_iff_eq] at hpe
    have h := (Dashboard.mem_firstPurchases_iff.mp hp).2
    rw [hpe.1] at h
    rw [h, hpe.2]
  · intro h
    have hmem := minDateOf_mem h
    obtain ⟨r2, hr2, hc2, _⟩ := Dashboard.mem_custDates_iff.mp hmem
    have hc : r.customerID ∈ Dashboard.customers base := by
      rw [← hc2]
      exact Dashboard.customerID_mem_customers hr2
    exact ⟨(r.customerID, r.invoiceDate),
      Dashboard.mem_firstPurchases_iff.mpr ⟨hc, h⟩, by simp⟩

/-- C4, witness: in the three-row table customer 17850 has invoices at
minutes 1000 and 3000; the instance decides the fate of the later row. -/
theorem new_segment_keeps_exactly_first_purchases_witness :
    exRowUK2 ∈ Dashboard.applyFilters exBase3 exSpecNew ↔
      exRowUK2 ∈ Dashboard.preSegment exBase3 exSpecNew ∧
      minDateOf (Dashboard.custDates exBase3 exRowUK2.customerID) =
        some exRowUK2.invoiceDate :=
  new_segment_keeps_exactly_first_purchases exBase3 exSpecNew rfl exRowUK2

/-- C5: the segment condition is a function of the base table and the segment
choice alone, so two filter specifications that agree on the segment impose
the same row condition; and each pipeline run factors as its non-segment
predicates followed by that condition, so the admitted customer identifiers
coincide in both runs. -/
theorem segment_classification_uses_base_only (base : List Row)
    (s1 s2 : FilterSpec) (h : s1.segment = s2.segment) :
    Dashboard.segmentKeep base s1.segment = Dashboard.segmentKeep base s2.segment ∧
    Dashboard.applyFilters base s1 =
      (Dashboard.preSegment base s1).filter (Dashboard.segmentKeep base s1.segment) ∧
    Dashboard.applyFilters base s2 =
      (Dashboard.preSegment base s2).filter (Dashboard.segmentKeep base s2.segment) :=
  ⟨by rw [h], Dashboard.applyFilters_eq_filter_segmentKeep base s1,
    Dashboard.applyFilters_eq_filter_segmentKeep base s2⟩

/-- C5, witness: two specifications differing only in the country selection. -/
theorem segment_classification_uses_base_only_witness :
    Dashboard.segmentKeep exBase2 exSpecAll.segment =
      Dashboard.segmentKeep exBase2 exSpecUK.segment ∧
    Dashboard.applyFilters exBase2 exSpecAll =
      (Dashboard.preSegment exBase2 exSpecAll).filter
        (Dashboard.segmentKeep exBase2 exSpecAll.segment) ∧
    Dashboard.applyFilters exBase2 exSpecUK =
      (Dashboard.preSegment exBase2 exSpecUK).filter
        (Dashboard.segmentKeep exBase2 exSpecUK.segment) :=
  segment_classification_uses_base_only exBase2 exSpecAll exSpecUK rfl

/-- C6: for every base table and filter specification, the filtered table is
a sub-list of the base table — every filtered row is a base row, and no row
occurs more often than in the base; the New-segment merge included. -/
theorem filtered_table_sub_multiset_of_base (base : List Row) (s : FilterSpec) :
    List.Sublist (Dashboard.applyFilters base s) base ∧
    ∀ r : Row, (Dashboard.applyFilters base s).count r ≤ base.count r :=
  ⟨Dashboard.applyFilters_sublist base s,
    fun r => (Dashboard.applyFilters_sublist base s).count_le r⟩

/-- C7: the range mask is inclusive at both ends of all three ranges
unconditionally, and whenever any one of the three ranges (date, quantity,
unit price) is reversed (lower bound above the upper), the filtered table is
empty with all four KPI scalars zero and no failure. -/
theorem reversed_range_empty_and_zero_kpis (base : List Row)
    (s : FilterSpec) :
    (∀ r : Row, Dashboard.rangeMask s r = true ↔
      (s.dateLo ≤ r.invoiceDate ∧ r.invoiceDate ≤ s.dateHi ∧
       s.qtyLo ≤ r.quantity ∧ r.quantity ≤ s.qtyHi ∧
       s.priceLo ≤ r.unitPrice ∧ r.unitPrice ≤ s.priceHi)) ∧
    ((s.dateHi < s.dateLo ∨ s.qtyHi < s.qtyLo ∨ s.priceHi < s.priceLo) →
      Dashboard.applyFilters base s = [] ∧
      totalSales (Dashboard.applyFilters base s) = 0 ∧
      orderCount (Dashboard.applyFilters base s) = 0 ∧
      customerCount (Dashboard.applyFilters base s) = 0 ∧
      productCount (Dashboard.applyFilters base s) = 0) := by
  have hmask : ∀ r : Row, Dashboard.rangeMask s r = true ↔
      (s.dateLo ≤ r.invoiceDate ∧ r.invoiceDate ≤ s.dateHi ∧
       s.qtyLo ≤ r.quantity ∧ r.quantity ≤ s.qtyHi ∧
       s.priceLo ≤ r.unitPrice ∧ r.unitPrice ≤ s.priceHi) := by
    intro r
    rw [Dashboard.rangeMask]
    simp [and_assoc]
  refine ⟨hmask, fun hrev => ?_⟩
  have hnil : base.filter (Dashboard.rangeMask s) = [] := by
    rw [List.filter_eq_nil_iff]
    intro r _ hmas
    obtain ⟨hd1, hd2, hq1, hq2, hp1, hp2⟩ := (hmask r).mp hmas
    rcases hrev with h | h | h
    · omega
    · omega
    · exact absurd (le_trans hp1 hp2) (not_le.mpr h)
  have happ := Dashboard.applyFilters_of_mask_nil hnil
  refine ⟨happ, ?_, ?_, ?_, ?_⟩ <;> rw [happ] <;> rfl

/-- C7, witness corollary: the reversed date range `[5000, 4000]` on the
two-row table. -/
theorem reversed_range_empty_and_zero_kpis_witness :
    (∀ r : Row, Dashboard.rangeMask exSpecRev r = true ↔
      (exSpecRev.dateLo ≤ r.invoiceDate ∧ r.invoiceDate ≤ exSpecRev.dateHi ∧
       exSpecRev.qtyLo ≤ r.quantity ∧ r.quantity ≤ exSpecRev.qtyHi ∧
       exSpecRev.priceLo ≤ r.unitPrice ∧ r.unitPrice ≤ exSpecRev.priceHi)) ∧
    ((exSpecRev.dateHi < exSpecRev.dateLo ∨ exSpecRev.qtyHi < exSpecRev.qtyLo ∨
        exSpecRev.priceHi < exSpecRev.priceLo) →
      Dashboard.applyFilters exBase2 exSpecRev = [] ∧
      totalSales (Dashboard.applyFilters exBase2 exSpecRev) = 0 ∧
      orderCount (Dashboard.applyFilters exBase2 exSpecRev) = 0 ∧
      customerCount (Dashboard.applyFilters exBase2 exSpecRev) = 0 ∧
      productCount (Dashboard.applyFilters exBase2 exSpecRev) = 0) :=
  reversed_range_empty_and_zero_kpis exBase2 exSpecRev

/-- C8: the High Value segment admits a duplicate-free set of exactly
`min(100, number of distinct customers)` customer identifiers, all drawn from
the base table's customers, and every admitted customer's lifetime spend is
at least that of every distinct customer left out. -/
theorem high_value_exactly_top_hundred (base : List Row) :
    (Dashboard.highValue base).Nodup ∧
    (Dashboard.highValue base).length = min 100 (Dashboard.customers base).length ∧
    (∀ c ∈ Dashboard.highValue base, c ∈ Dashboard.customers base) ∧
    ∀ c ∈ Dashboard.highValue base, ∀ c2 ∈ Dashboard.customers base,
      c2 ∉ Dashboard.highValue base →
        Dashboard.custSpend base c2 ≤ Dashboard.custSpend base c :=
  ⟨Dashboard.highValue_nodup base, Dashboard.highValue_length base,
    fun _ hc => Dashboard.highValue_subset_customers hc,
    fun _ hc _ hc2 hnot => Dashboard.highValue_top hc hc2 hnot⟩

/-- C9: in the RFM table over a non-empty filtered table, every customer's
recency is the whole-day distance from the reference instant (one day past
the table's latest invoice) to that customer's latest invoice, and the
customer owning the table's most recent invoice has recency exactly 1. -/
theorem rfm_recency_of_latest_invoice_is_one (rows : List Row) (r : Row)
    (hr : r ∈ rows) (hmax : ∀ x ∈ rows, x.invoiceDate ≤ r.invoiceDate) :
    (∀ e ∈ rfm rows, e.recency =
        daysBetween (refInstant rows) ((custMaxDate rows e.cust).getD 0)) ∧
    ∃ e ∈ rfm rows, e.cust = r.customerID ∧ e.recency = 1 := by
  constructor
  · intro e he
    obtain ⟨c, _, rfl⟩ := List.mem_map.mp he
    rfl
  · have hc : r.customerID ∈ Dashboard.customers rows :=
      Dashboard.customerID_mem_customers hr
    refine ⟨_, List.mem_map_of_mem _ hc, rfl, ?_⟩
    have h1 : maxDateOf (rows.map Row.invoiceDate) = some r.invoiceDate := by
      rw [maxDateOf_eq_some_iff]
      refine ⟨List.mem_map_of_mem _ hr, ?_⟩
      rintro x hx
      obtain ⟨x2, hx2, rfl⟩ := List.mem_map.mp hx
      exact hmax x2 hx2
    have h2 : custMaxDate rows r.customerID = some r.invoiceDate := by
      rw [custMaxDate, maxDateOf_eq_some_iff]
      refine ⟨Dashboard.mem_custDates_iff.mpr ⟨r, hr, rfl, rfl⟩, ?_⟩
      intro x hx
      obtain ⟨x2, hx2, _, rfl⟩ := Dashboard.mem_custDates_iff.mp hx
      exact hmax x2 hx2
    show daysBetween (refInstant rows) ((custMaxDate rows r.customerID).getD 0) = 1
    rw [h2, refInstant, h1, Option.getD_some, daysBetween,
      Nat.add_sub_cancel_left]
    rfl

/-- C9, witness: the French row holds the latest invoice of the two-row
table, so customer 12500's recency is 1. -/
theorem rfm_recency_of_latest_invoice_is_one_witness :
    (∀ e ∈ rfm exBase2, e.recency =
        daysBetween (refInstant exBase2) ((custMaxDate exBase2 e.cust).getD 0)) ∧
    ∃ e ∈ rfm exBase2, e.cust = exRowFR.customerID ∧ e.recency = 1 :=
  rfm_recency_of_latest_invoice_is_one exBase2 exRowFR (by decide) (by decide)

end Retail
